import Mathlib

/-!
Verification development for the pddl-utils core data model
(`structs.py`, `structs_functs.py`, `string_utils.py`).

The Python classes are embedded shallowly:
* `PType`, `PObject`, `PVariable`, `Predicate`, `GroundAtom` mirror the
  frozen dataclasses `Type`, `Object`, `Variable`, `Predicate`, `GroundAtom`;
* canonical strings (`__str__`) are reproduced character for character,
  since the source defines equality and hashing of atoms and operators
  through them;
* Python `set` values of ground atoms are represented by `List GroundAtom`
  together with string-based membership (`pyMemB`), matching the
  hash/eq behaviour of the source (both are derived from `str(atom)`);
* fallible code paths (`assert`, `raise`) are represented with
  `Except PyError`.
-/

namespace PddlUtils

/-- Python exception kinds raised by the modelled code. -/
inductive PyError where
  | assertionError
  | keyError
  | indexError
  | attributeError
  | notImplementedError
  | runtimeError (msg : String)
  | valueError (msg : String)
deriving DecidableEq, Repr

/-- `Type` from `structs.py`: a name, feature names, and an optional parent.
The parent chain is part of the value (dataclass equality compares it). -/
inductive PType : Type where
  | mk (name : String) (featureNames : List String) (parent : Option PType)

/-- Structural (dataclass) equality test for `PType`. -/
def PType.beq : PType → PType → Bool
  | .mk n f p, .mk n' f' p' =>
    n == n' && f == f' &&
      match p, p' with
      | none, none => true
      | some a, some b => PType.beq a b
      | _, _ => false

theorem PType.beq_iff : ∀ (a b : PType), PType.beq a b = true ↔ a = b
  | .mk n f p, .mk n' f' p' => by
    cases p <;> cases p' <;>
      (simp [PType.beq, PType.beq_iff]; try tauto)

instance : DecidableEq PType := fun a b => decidable_of_iff _ (PType.beq_iff a b)

/-- Accessor for the `name` field of `Type`. -/
def PType.name : PType → String
  | .mk n _ _ => n

/-- Accessor for the `parent` field of `Type`. -/
def PType.parent : PType → Option PType
  | .mk _ _ p => p

/-- `_TypedEntity.is_instance`: walk the parent chain of the entity's type
looking for `t` (dataclass equality at each step). -/
def PType.isInstance : PType → PType → Bool
  | cur, t =>
    PType.beq cur t ||
      match cur with
      | .mk _ _ (some p) => PType.isInstance p t
      | .mk _ _ none => false

/-- `Object` from `structs.py` (a `_TypedEntity` whose name has no "?"). -/
structure PObject where
  name : String
  ptype : PType
deriving DecidableEq

/-- `Variable` from `structs.py` (a `_TypedEntity` whose name starts with "?"). -/
structure PVariable where
  name : String
  ptype : PType
deriving DecidableEq

/-- `_TypedEntity.__str__`: `f"{self.name}:{self.type.name}"` for objects. -/
def PObject.str (o : PObject) : String :=
  o.name ++ ":" ++ o.ptype.name

/-- `_TypedEntity.__str__`: `f"{self.name}:{self.type.name}"` for variables. -/
def PVariable.str (v : PVariable) : String :=
  v.name ++ ":" ++ v.ptype.name

/-- `Predicate` from `structs.py`.  The `_classifier` field is dropped: it is
excluded from comparison (`compare=False`), from the canonical string and
from every operation modelled here. -/
structure Predicate where
  name : String
  types : List PType
  is_negated : Bool
deriving DecidableEq

/-- `Predicate.__str__`: the name, prefixed with `NOT-` when negated. -/
def Predicate.str (p : Predicate) : String :=
  if p.is_negated then "NOT-" ++ p.name else p.name

/-- `Predicate.get_negation`: same name and types, flag toggled. -/
def Predicate.get_negation (p : Predicate) : Predicate :=
  ⟨p.name, p.types, !p.is_negated⟩

/-- The dataclass-generated `Predicate.__eq__`: it compares the fields that
do not carry `compare=False`, i.e. `name` and `types` only. -/
def Predicate.eqPy (a b : Predicate) : Bool :=
  a.name == b.name && a.types == b.types

/-- `GroundAtom` from `structs.py`: a predicate applied to objects. -/
structure GroundAtom where
  predicate : Predicate
  objects : List PObject
deriving DecidableEq

/-- `_Atom.__str__` for ground atoms:
`str(predicate) + "(" + ", ".join(map(str, objects)) + ")"`. -/
def atomStr (a : GroundAtom) : String :=
  a.predicate.str ++ "(" ++ String.intercalate ", " (a.objects.map PObject.str) ++ ")"

/-- `_Atom.__eq__`: canonical-string comparison. -/
def GroundAtom.eqPy (a b : GroundAtom) : Bool :=
  atomStr a == atomStr b

/-- `_Atom.__post_init__` applied at `GroundAtom` construction: arity check,
then per-argument `is_instance` check against the predicate's types. -/
def mkGroundAtom (p : Predicate) (objs : List PObject) : Except PyError GroundAtom :=
  if objs.length ≠ p.types.length then
    .error (.valueError ("Syntax error: Predicate " ++ p.name ++ " arity mismatch"))
  else if (objs.zip p.types).all (fun e => e.1.ptype.isInstance e.2) then
    .ok ⟨p, objs⟩
  else
    .error (.valueError ("Syntax error: Predicate " ++ p.name ++ " argument type mismatch"))

/-- Membership of a ground atom in a Python set of ground atoms: the source
hashes and compares atoms by canonical string. -/
def pyMemB (a : GroundAtom) (s : List GroundAtom) : Bool :=
  s.any (fun b => atomStr b = atomStr a)

/-- `filter_valid_state` from `utils/structs_functs.py`: drop every atom
whose predicate is marked negated. -/
def filterValidState (state : List GroundAtom) : List GroundAtom :=
  state.filter (fun a => !a.predicate.is_negated)

/-- The negated twin built inside `transition`:
`GroundAtom(atom.predicate.get_negation(), atom.objects)`. -/
def negGAtom (a : GroundAtom) : GroundAtom :=
  ⟨a.predicate.get_negation, a.objects⟩

/-- `set.discard` for ground atoms: remove the element whose canonical string
matches (Python removes the unique hash/eq-equal element). -/
def pyDiscard (a : GroundAtom) (s : List GroundAtom) : List GroundAtom :=
  s.filter (fun b => atomStr b ≠ atomStr a)

/-- `set.add` for ground atoms: keep the set unchanged when a string-equal
element is already present, otherwise append. -/
def pyAdd (a : GroundAtom) (s : List GroundAtom) : List GroundAtom :=
  if pyMemB a s then s else s ++ [a]

/-- `transition` from `utils/structs_functs.py` (identical to the copy in
`structs/structs_functs.py`): starting from the current state, process the
effect atoms one at a time — discard the atom's negated twin, then add the
atom.  The iteration order of the Python `set` is made explicit by taking
the effect as a list. -/
def transition (currState : List GroundAtom) (effect : List GroundAtom) : List GroundAtom :=
  effect.foldl (fun st atom => pyAdd atom (pyDiscard (negGAtom atom) st)) currState

/-- The canonical-string image of a state; two Python sets of atoms are equal
exactly when these images coincide. -/
def strSet (s : List GroundAtom) : Finset String :=
  (s.map atomStr).toFinset

/-- `VarToObjSub`: a Python dict from variables to objects, as an
association list with unique keys maintained by `subUpdate`. -/
abbrev Sub : Type := List (PVariable × PObject)

/-- The key list of the dict (`sub.keys()`). -/
def Sub.keys (s : Sub) : List PVariable :=
  s.map Prod.fst

/-- Dict lookup (`sub[v]`); `none` corresponds to a Python `KeyError`. -/
def Sub.lookup (s : Sub) (v : PVariable) : Option PObject :=
  (s.find? (fun e => e.1 = v)).map Prod.snd

/-- `dict.__setitem__`: replace the value when the key is present, otherwise
append the binding. -/
def Sub.setKey (s : Sub) (v : PVariable) (o : PObject) : Sub :=
  if s.any (fun e => e.1 = v) then
    s.map (fun e => if e.1 = v then (v, o) else e)
  else
    s ++ [(v, o)]

/-- `var_sub = dict(sub); var_sub.update(dict(zip(vars, combo)))` from the
quantifier bodies of `ForAll.ground` and `Exists.evaluate`. -/
def subUpdate (s : Sub) (vs : List PVariable) (combo : List PObject) : Sub :=
  (vs.zip combo).foldl (fun acc e => acc.setKey e.1 e.2) s

/-- An element of a Python set that may hold either `Variable` values or
plain strings: `LiteralDisjunction.exposed_variables` inserts the
variables' *names* where every other formula inserts the variables
themselves.  Distinct constructors never compare equal, exactly as the
Python values never do. -/
inductive VarOrStr where
  | var (v : PVariable)
  | str (s : String)
deriving DecidableEq

/-- `v.name` read on an element of such a set: succeeds on a `Variable`,
raises `AttributeError` (modelled as `none`) on a plain string. -/
def VarOrStr.pyName : VarOrStr → Option String
  | .var v => some v.name
  | .str _ => none

/-- `v.name` read on every element of a set of `VarOrStr` values, as done
by the generator `(v.name for v in lit.exposed_variables)`. -/
def pyNamesOf : List VarOrStr → Option (List String)
  | [] => some []
  | x :: xs => do
    let n ← x.pyName
    let ns ← pyNamesOf xs
    pure (n :: ns)

/-- The lifted-formula AST (`LiftedFormula` in `structs.py`).  `gatom`
is included because the Python code is dynamically typed and `Not`
dispatches on `GroundAtom` as well; `GroundAtom` supports none of
`evaluate` / `ground` / `exposed_variables` / `used_predicates`,
which surfaces as `AttributeError` in the model. -/
inductive Formula where
  | latom (p : Predicate) (vars : List PVariable)
  | gatom (g : GroundAtom)
  | conj (ls : List Formula)
  | disj (ls : List Formula)
  | fa (vars : List PVariable) (body : Formula) (is_negative : Bool)
  | ex (vars : List PVariable) (body : Formula) (is_negative : Bool)
  | whenF (cond : Formula) (eff : Formula)
  | imply (ant : Formula) (cons : Formula)
  | equalTo (left right : PVariable) (is_negative : Bool)

/-- Python `repr` of a list of strings, used inside the `FORALL`/`EXISTS`
canonical strings (`f"FORALL({[v.name for v in self.variables]}) ..."`). -/
def pyStrListRepr (names : List String) : String :=
  let q := String.mk [Char.ofNat 39]
  "[" ++ String.intercalate ", " (names.map (fun n => q ++ n ++ q)) ++ "]"

/-- Python `repr` of a list of variables, used inside `Operator.__str__`
(`f"Parameters: {self.parameters}"`). -/
def pyVarListRepr (vs : List PVariable) : String :=
  "[" ++ String.intercalate ", " (vs.map PVariable.str) ++ "]"

mutual

/-- The canonical string (`__str__` / `_str`) of each formula variant. -/
def formulaStr : Formula → String
  | .latom p vs => p.str ++ "(" ++ String.intercalate ", " (vs.map PVariable.str) ++ ")"
  | .gatom g => atomStr g
  | .conj ls => "AND(" ++ String.intercalate ", " (formulaStrList ls) ++ ")"
  | .disj ls => "OR(" ++ String.intercalate ", " (formulaStrList ls) ++ ")"
  | .fa vs b neg =>
    let s := "FORALL(" ++ pyStrListRepr (vs.map PVariable.name) ++ ") : " ++ formulaStr b
    if neg then "NOT-" ++ s else s
  | .ex vs b neg =>
    let s := "EXISTS(" ++ pyStrListRepr (vs.map PVariable.name) ++ ") : " ++ formulaStr b
    if neg then "NOT-" ++ s else s
  | .whenF c e => "WHEN(" ++ formulaStr c ++ ") : " ++ formulaStr e
  | .imply a c => "IMPLY(" ++ formulaStr a ++ ") => " ++ formulaStr c
  | .equalTo l r neg =>
    let s := l.name ++ " = " ++ r.name
    if neg then "NOT(" ++ s ++ ")" else s

/-- Canonical strings of a list of child formulas. -/
def formulaStrList : List Formula → List String
  | [] => []
  | l :: ls => formulaStr l :: formulaStrList ls

end

mutual

/-- `exposed_variables` of each variant.  The result is a Python set of
`VarOrStr` values (as a list, compared by membership); `none` models an
`AttributeError` — raised when the attribute is read on a `GroundAtom`, or
when `LiteralDisjunction` reads `v.name` on an element that is itself a
plain string.  `LiteralDisjunction` inserts `v.name` for every exposed
element `v` of its children; every other variant inserts the elements
themselves (quantifiers subtract their bound variables). -/
def exposedVars : Formula → Option (List VarOrStr)
  | .latom _ vs => some ((vs.map VarOrStr.var).dedup)
  | .gatom _ => none
  | .conj ls => exposedVarsList ls
  | .disj ls => do
    let u ← exposedVarsList ls
    let names ← pyNamesOf u
    pure ((names.map VarOrStr.str).dedup)
  | .fa vs b _ => do
    let u ← exposedVars b
    pure (u.filter (fun x => ¬ (vs.map VarOrStr.var).contains x))
  | .ex vs b _ => do
    let u ← exposedVars b
    pure (u.filter (fun x => ¬ (vs.map VarOrStr.var).contains x))
  | .whenF c e => do
    let a ← exposedVars c
    let b ← exposedVars e
    pure ((a ++ b).dedup)
  | .imply a c => do
    let x ← exposedVars a
    let y ← exposedVars c
    pure ((x ++ y).dedup)
  | .equalTo l r _ => some (([VarOrStr.var l, VarOrStr.var r]).dedup)

/-- Union of the children's `exposed_variables`, as read by
`LiteralConjunction`/`LiteralDisjunction` (`variables.update(...)`). -/
def exposedVarsList : List Formula → Option (List VarOrStr)
  | [] => some []
  | l :: ls => do
    let a ← exposedVars l
    let b ← exposedVarsList ls
    pure ((a ++ b).dedup)

end

mutual

/-- `used_predicates` of each variant; `none` models the `AttributeError`
raised when the attribute is read on a `GroundAtom`. -/
def usedPredicates : Formula → Option (List Predicate)
  | .latom p _ => some [p]
  | .gatom _ => none
  | .conj ls => usedPredicatesList ls
  | .disj ls => usedPredicatesList ls
  | .fa _ b _ => usedPredicates b
  | .ex _ b _ => usedPredicates b
  | .whenF c e => do
    let a ← usedPredicates c
    let b ← usedPredicates e
    pure ((a ++ b).dedup)
  | .imply a c => do
    let x ← usedPredicates a
    let y ← usedPredicates c
    pure ((x ++ y).dedup)
  | .equalTo _ _ _ => some []

/-- Union of the children's `used_predicates`. -/
def usedPredicatesList : List Formula → Option (List Predicate)
  | [] => some []
  | l :: ls => do
    let a ← usedPredicates l
    let b ← usedPredicatesList ls
    pure ((a ++ b).dedup)

end

/-- `LiftedAtom.ground`: assert that the atom's variables are covered by the
substitution keys, then build the singleton
`{GroundAtom(self.predicate, [sub[v] for v in self.variables])}`. -/
def liftedAtomGround (p : Predicate) (vs : List PVariable) (sub : Sub) :
    Except PyError (List GroundAtom) :=
  if ¬ vs.all (fun v => (Sub.keys sub).contains v) then .error .assertionError
  else
    match vs.mapM (Sub.lookup sub) with
    | none => .error .keyError
    | some objs => do
      let g ← mkGroundAtom p objs
      pure [g]

/-- The `assert set(self.exposed_variables).issubset(set(sub.keys()))` guard
shared by the composite `evaluate`/`ground` methods.  Reading the attribute
can itself raise `AttributeError`; otherwise the subset test compares
`VarOrStr` elements against the (variable-valued) dict keys. -/
def coverageCheck (f : Formula) (sub : Sub) : Except PyError Unit :=
  (exposedVars f).elim (.error .attributeError) (fun es =>
    if es.all (fun x => (((Sub.keys sub).map VarOrStr.var)).contains x) then .ok ()
    else .error .assertionError)

/-- `get_objects_in_state`: the set of objects occurring in the state's
atoms (deduplicated by the objects' dataclass equality). -/
def getObjectsInState (state : List GroundAtom) : List PObject :=
  ((state.map (fun a => a.objects)).flatten).dedup

/-- The per-variable candidate list used by `ForAll.ground` and
`Exists.evaluate`: `get_objects_by_type(objects).get(var.type, set())` keyed
by the dataclass equality of `Type` — an exact type match, not a subtype
walk. -/
def objsForVar (state : List GroundAtom) (v : PVariable) : List PObject :=
  (getObjectsInState state).filter (fun o => o.ptype = v.ptype)

/-- `itertools.product(*lists)`: all combinations, rightmost factor varying
fastest. -/
def listProduct {α : Type} : List (List α) → List (List α)
  | [] => [[]]
  | l :: ls => (l.map (fun x => (listProduct ls).map (fun c => x :: c))).flatten

/-- Is the value an `EqualTo`?  (The
`isinstance(lit, EqualTo)` test of `LiteralConjunction.ground`.) -/
def isEqualToF : Formula → Bool
  | .equalTo _ _ _ => true
  | _ => false

/-- The combination loop of `Exists.evaluate`, after the body has been
evaluated on each combination in product order: return `not is_negative` on
the first satisfying combination (errors before it propagate),
`is_negative` when the loop is exhausted. -/
def exLoop (neg : Bool) : List (Except PyError Bool) → Except PyError Bool
  | [] => .ok neg
  | r :: rest => do
    let b ← r
    if b then pure (!neg) else exLoop neg rest

/-- The union loop of `ForAll.ground`, after the body has been grounded on
each combination in product order: concatenate the per-combination results,
propagating the first error. -/
def faLoop : List (Except PyError (List GroundAtom)) → Except PyError (List GroundAtom)
  | [] => .ok []
  | r :: rest => do
    let a ← r
    let b ← faLoop rest
    pure (a ++ b)

mutual

/-- `evaluate(sub, state)` of each formula variant, `structs.py`. -/
def evalF (f : Formula) (sub : Sub) (state : List GroundAtom) : Except PyError Bool :=
  match f with
  | .latom p vs => do
    let gs ← liftedAtomGround p vs sub
    pure ((filterValidState gs).all (fun g => pyMemB g state))
  | .gatom _ => .error .attributeError
  | .conj ls => do
    let _ ← coverageCheck (.conj ls) sub
    evalAll ls sub state
  | .disj ls => do
    let _ ← coverageCheck (.disj ls) sub
    evalAny ls sub state
  | .fa _ _ _ => .error (.runtimeError "ForAll is a effect.")
  | .ex vs body neg =>
    exLoop neg
      ((listProduct (vs.map (objsForVar state))).map
        (fun combo => evalF body (subUpdate sub vs combo) state))
  | .whenF _ _ => .error (.runtimeError "When is an effect.")
  | .imply a c => do
    let _ ← coverageCheck (.imply a c) sub
    let b ← evalF a sub state
    if b then evalF c sub state else pure true
  | .equalTo l r neg =>
    match Sub.lookup sub l with
    | none => .error .keyError
    | some lo =>
      match Sub.lookup sub r with
      | none => .error .keyError
      | some ro => pure (if neg then !(lo == ro) else lo == ro)

/-- `LiteralConjunction.evaluate` body: short-circuit on the first false
child, propagating the first child error. -/
def evalAll (ls : List Formula) (sub : Sub) (state : List GroundAtom) :
    Except PyError Bool :=
  match ls with
  | [] => pure true
  | l :: rest => do
    let b ← evalF l sub state
    if b then evalAll rest sub state else pure false

/-- `LiteralDisjunction.evaluate` body: short-circuit on the first true
child. -/
def evalAny (ls : List Formula) (sub : Sub) (state : List GroundAtom) :
    Except PyError Bool :=
  match ls with
  | [] => pure false
  | l :: rest => do
    let b ← evalF l sub state
    if b then pure true else evalAny rest sub state

/-- `ground(sub, state)` of each formula variant, `structs.py`. -/
def groundF (f : Formula) (sub : Sub) (state : List GroundAtom) :
    Except PyError (List GroundAtom) :=
  match f with
  | .latom p vs => liftedAtomGround p vs sub
  | .gatom _ => .error .attributeError
  | .conj ls => do
    let _ ← coverageCheck (.conj ls) sub
    groundList ls sub state
  | .disj _ => .error .notImplementedError
  | .fa vs body _ =>
    faLoop
      ((listProduct (vs.map (objsForVar state))).map
        (fun combo => groundF body (subUpdate sub vs combo) state))
  | .ex _ _ _ => .error .notImplementedError
  | .whenF c e => do
    let _ ← coverageCheck (.whenF c e) sub
    let b ← evalF c sub state
    if b then groundF e sub state else pure []
  | .imply _ _ => .error (.runtimeError "Imply is a logical constraint, not an effect.")
  | .equalTo _ _ _ => .error (.runtimeError "Cannot ground an equality constraint into atoms.")

/-- `LiteralConjunction.ground` body: per child, assert it is not an
`EqualTo` (`assert not isinstance(lit, EqualTo)`), then extend with the
child's grounding. -/
def groundList (ls : List Formula) (sub : Sub) (state : List GroundAtom) :
    Except PyError (List GroundAtom) :=
  match ls with
  | [] => pure []
  | l :: rest =>
    if isEqualToF l then .error .assertionError
    else do
      let r ← groundF l sub state
      let rs ← groundList rest sub state
      pure (r ++ rs)

end

/-- Is the value a `LiftedAtom` or `GroundAtom`?  (The
`isinstance(negated_lit, (LiftedAtom, GroundAtom))` filter of `Not`.) -/
def isAtomF : Formula → Bool
  | .latom _ _ => true
  | .gatom _ => true
  | _ => false

mutual

/-- The `Not` transform of `structs.py`, dispatching on the formula
variant.  De Morgan on conjunction/disjunction keeps only the children
whose negations are atoms; quantifiers and `EqualTo` toggle their
`is_negative` flag; `When` pushes into its effect; `Imply` with a non-atom
negated consequent raises `ValueError`; atoms negate their predicate. -/
def NotF (f : Formula) : Except PyError Formula :=
  match f with
  | .fa vs b neg => .ok (.fa vs b (!neg))
  | .ex vs b neg => .ok (.ex vs b (!neg))
  | .whenF c e => do
    let ne ← NotF e
    pure (.whenF c ne)
  | .imply a c => do
    let nc ← NotF c
    if isAtomF nc then pure (.conj [a, nc])
    else .error (.valueError "Cannot negate Imply with this consequent")
  | .equalTo l r neg => .ok (.equalTo l r (!neg))
  | .conj ls => do
    let ns ← NotFList ls
    pure (.disj (ns.filter isAtomF))
  | .disj ls => do
    let ns ← NotFList ls
    pure (.conj (ns.filter isAtomF))
  | .latom p vs => .ok (.latom p.get_negation vs)
  | .gatom g => .ok (.gatom (negGAtom g))

/-- Childwise application of `Not` inside the conjunction/disjunction
branches (`negated_lit = Not(lit)` in source order, errors propagating). -/
def NotFList (ls : List Formula) : Except PyError (List Formula) :=
  match ls with
  | [] => pure []
  | l :: rest => do
    let n ← NotF l
    let ns ← NotFList rest
    pure (n :: ns)

end

/-- `Operator` from `structs.py` (the fields; the `__post_init__` checks
live in `mkOperator`). -/
structure Operator where
  name : String
  parameters : List PVariable
  preconditions : Formula
  effects : Formula

/-- `Operator.__str__` (`_str`): the canonical string used for equality,
hashing and ordering. -/
def opStr (op : Operator) : String :=
  "STRIPS-" ++ op.name ++ ":\n    Parameters: " ++ pyVarListRepr op.parameters ++
    "\n    Preconditions: " ++ formulaStr op.preconditions ++
    "\n    Effects: " ++ formulaStr op.effects

/-- `Operator.__eq__`: canonical-string comparison. -/
def Operator.eqPy (a b : Operator) : Bool :=
  opStr a == opStr b

/-- The error message of the undeclared-precondition-variable branch of
`Operator.__post_init__` (the interpolated variable set is elided since its
Python rendering order is unspecified). -/
def undeclaredPrecondMsg (name : String) : String :=
  "Syntax error: Action " ++ name ++ " has undeclared variables in precondition"

/-- The error message of the undeclared-effect-variable branch. -/
def undeclaredEffectMsg (name : String) : String :=
  "Syntax error: Action " ++ name ++ " has undeclared variables in effect"

/-- The error message of the effect-less-action branch. -/
def noEffectsMsg (name : String) : String :=
  "Action `" ++ name ++
    "` has no effects. Every action must have at least one effect. If necessary, define new predicates."

/-- `Operator` construction (`__post_init__`): reject a precondition or
effect with exposed variables outside the parameter list, then reject an
effect that uses no predicate. -/
def mkOperator (name : String) (params : List PVariable) (pre eff : Formula) :
    Except PyError Operator :=
  (exposedVars pre).elim (.error .attributeError) (fun sp =>
    if ¬ (sp.filter (fun x => ¬ (params.map VarOrStr.var).contains x)).isEmpty then
      .error (.valueError (undeclaredPrecondMsg name))
    else
      (exposedVars eff).elim (.error .attributeError) (fun se =>
        if ¬ (se.filter (fun x => ¬ (params.map VarOrStr.var).contains x)).isEmpty then
          .error (.valueError (undeclaredEffectMsg name))
        else
          (usedPredicates eff).elim (.error .attributeError) (fun ps =>
            if ps.isEmpty then .error (.valueError (noEffectsMsg name))
            else .ok ⟨name, params, pre, eff⟩)))

/-- The scan of `until_next_closing_parenthesis` over `s[1:]`
(`re.finditer(r"[\(\)]", s[1:])` with a skip counter): the index of the
parenthesis that closes the leading `(`, or `none`.  Characters other than
parentheses are skipped by the regex. -/
def findClose : List Char → Nat → Option Nat
  | [], _ => none
  | c :: cs, d =>
    if c = '(' then (findClose cs (d + 1)).map (· + 1)
    else if c = ')' then
      if d = 0 then some 0 else (findClose cs (d - 1)).map (· + 1)
    else (findClose cs d).map (· + 1)

/-- `until_next_closing_parenthesis` from `string_utils.py`.  `s[0]` on the
empty string raises `IndexError`; a string not starting with `(` raises
`ValueError`; a missing matching close raises `ValueError`; otherwise the
string is split after the matching close
(`s[: end + 1], s[end + 1 :]`). -/
def untilNextClosingParenthesis (s : List Char) :
    Except PyError (List Char × List Char) :=
  match s with
  | [] => .error .indexError
  | c :: rest =>
    if c ≠ '(' then
      .error (.valueError "The string must start with an opening parenthesis")
    else
      match findClose rest 0 with
      | none => .error (.valueError "No closing parenthesis found in the string")
      | some i => .ok ((c :: rest).take (i + 2), (c :: rest).drop (i + 2))

/-- Modelled from the spec: number of opening delimiters in a fragment. -/
def opensCount (l : List Char) : Nat := l.count '('

/-- Modelled from the spec: number of closing delimiters in a fragment. -/
def closesCount (l : List Char) : Nat := l.count ')'

/-- Modelled from the spec: a fragment is balanced when its opening and
closing delimiters pair up — equal totals, and no initial segment closes
more than it has opened. -/
def balancedParens (l : List Char) : Prop :=
  closesCount l = opensCount l ∧
    ∀ n : Nat, closesCount (l.take n) ≤ opensCount (l.take n)

instance {ε α : Type} [DecidableEq ε] [DecidableEq α] : DecidableEq (Except ε α) :=
  fun a b =>
    match a, b with
    | .ok x, .ok y =>
      if h : x = y then .isTrue (by rw [h])
      else .isFalse (by intro hc; cases hc; exact h rfl)
    | .error x, .error y =>
      if h : x = y then .isTrue (by rw [h])
      else .isFalse (by intro hc; cases hc; exact h rfl)
    | .ok _, .error _ => .isFalse (by intro hc; cases hc)
    | .error _, .ok _ => .isFalse (by intro hc; cases hc)

/-! ### Concrete example values

A tiny world — one base type `t`, a subtype `s`, a unary predicate `p`,
objects `a`, `b`, variables `?x`, `?y` — reused by the concrete witnesses
and counterexamples below. -/

/-- Example base type `t`. -/
def exT : PType := .mk "t" [] none

/-- Example subtype `s` with parent `t`. -/
def exS : PType := .mk "s" [] (some exT)

/-- Example unary predicate `p` over `t`. -/
def exP : Predicate := ⟨"p", [exT], false⟩

/-- Example unary predicate `q` over `t`. -/
def exQ : Predicate := ⟨"q", [exT], false⟩

/-- Example object `a : t`. -/
def exA : PObject := ⟨"a", exT⟩

/-- Example object `b : t`. -/
def exB : PObject := ⟨"b", exT⟩

/-- Example variable `?x : t`. -/
def exX : PVariable := ⟨"?x", exT⟩

/-- Example variable `?y : t`. -/
def exY : PVariable := ⟨"?y", exT⟩

/-- Example ground atom `p(a)`. -/
def exPA : GroundAtom := ⟨exP, [exA]⟩

/-- Example ground atom `p(b)`. -/
def exPB : GroundAtom := ⟨exP, [exB]⟩

/-! ### Claims -/

/-- Reduction of the `Except` monad's bind on a success value. -/
@[simp] theorem exceptBind_ok {ε α β : Type} (a : α) (f : α → Except ε β) :
    (Except.ok a >>= f : Except ε β) = f a := rfl

/-- Reduction of the `Except` monad's bind on an error value. -/
@[simp] theorem exceptBind_error {ε α β : Type} (e : ε) (f : α → Except ε β) :
    ((Except.error e : Except ε α) >>= f) = Except.error e := rfl

/-- `pure` in the `Except` monad is `Except.ok`. -/
@[simp] theorem exceptPure_eq {ε α : Type} (a : α) :
    (pure a : Except ε α) = Except.ok a := rfl

/-- Reduction of the `Option` monad's bind on a present value. -/
@[simp] theorem optionBind_some {α β : Type} (a : α) (f : α → Option β) :
    (some a >>= f : Option β) = f a := rfl

/-- Reduction of the `Option` monad's bind on a missing value. -/
@[simp] theorem optionBind_none {α β : Type} (f : α → Option β) :
    ((none : Option α) >>= f) = none := rfl

/-- `pure` in the `Option` monad is `some`. -/
@[simp] theorem optionPure_eq {α : Type} (a : α) :
    (pure a : Option α) = some a := rfl

/-- Double application of the `GroundAtom` branch of `Not` restores the
atom exactly: `get_negation` toggles only the flag. -/
theorem negGAtom_negGAtom (a : GroundAtom) : negGAtom (negGAtom a) = a := by
  cases a with
  | mk p objs => cases p; simp [negGAtom, Predicate.get_negation]

/-- C9: evaluating a `ForAll` or a `When` raises a `RuntimeError` stating
the formula is an effect, not a condition, and grounding an `Exists`, a
`LiteralDisjunction` or an `EqualTo` fails loudly (`NotImplementedError`
for the first two, `RuntimeError` for the equality constraint), for every
substitution and state. -/
theorem evalGround_illegal_variants_fail (vs : List PVariable) (b : Formula)
    (n : Bool) (c e : Formula) (l r : PVariable) (ls : List Formula)
    (sub : Sub) (st : List GroundAtom) :
    evalF (.fa vs b n) sub st = .error (.runtimeError "ForAll is a effect.") ∧
    evalF (.whenF c e) sub st = .error (.runtimeError "When is an effect.") ∧
    groundF (.ex vs b n) sub st = .error .notImplementedError ∧
    groundF (.disj ls) sub st = .error .notImplementedError ∧
    groundF (.equalTo l r n) sub st =
      .error (.runtimeError "Cannot ground an equality constraint into atoms.") :=
  ⟨rfl, rfl, rfl, rfl, rfl⟩

/-- C7: `Not` is an involution on ground atoms up to (indeed, including)
canonical-string rendering, and on `ForAll`/`Exists` it only toggles the
`is_negative` flag, keeping the same quantifier kind; the canonical
rendering of the negative form is the positive rendering prefixed with the
negation marker, same quantifier keyword. -/
theorem not_involution_and_quantifier_toggle :
    (∀ g : GroundAtom, ∃ y, NotF (.gatom g) = .ok y ∧
      ∃ z, NotF y = .ok z ∧ formulaStr z = formulaStr (.gatom g)) ∧
    (∀ (vs : List PVariable) (b : Formula) (n : Bool),
      NotF (.fa vs b n) = .ok (.fa vs b (!n)) ∧
      formulaStr (.fa vs b true) = "NOT-" ++ formulaStr (.fa vs b false)) ∧
    (∀ (vs : List PVariable) (b : Formula) (n : Bool),
      NotF (.ex vs b n) = .ok (.ex vs b (!n)) ∧
      formulaStr (.ex vs b true) = "NOT-" ++ formulaStr (.ex vs b false)) := by
  refine ⟨fun g => ⟨.gatom (negGAtom g), rfl, .gatom (negGAtom (negGAtom g)), rfl, ?_⟩,
    fun vs b n => ⟨rfl, ?_⟩, fun vs b n => ⟨rfl, ?_⟩⟩
  · rw [negGAtom_negGAtom]
  · simp [formulaStr]
  · simp [formulaStr]

/-- C6: negating a conjunction (disjunction) yields the dual connective
whose children are the negations of the original children, except that
every child whose negation is not an atom is silently dropped by the
`isinstance` filter rather than propagated or raised. -/
theorem not_demorgan_drops_nonatoms (ls ns : List Formula)
    (h : NotFList ls = .ok ns) :
    NotF (.conj ls) = .ok (.disj (ns.filter isAtomF)) ∧
    NotF (.disj ls) = .ok (.conj (ns.filter isAtomF)) ∧
    ns.length = ls.length := by
  refine ⟨by simp [NotF, h], by simp [NotF, h], ?_⟩
  induction ls generalizing ns with
  | nil => cases h; rfl
  | cons l rest ih =>
    revert h
    simp only [NotFList]
    cases hn : NotF l with
    | error e => intro h; cases h
    | ok n =>
      cases hrest : NotFList rest with
      | error e => intro h; simp at h
      | ok ms =>
        intro h
        simp at h
        subst h
        simp [ih ms hrest]

/-- Witness for C6 at a concrete input: negating the conjunction
`p(?x) ∧ ∀?y. p(?y)` gives a disjunction in which the negated universal
child (whose negation is not an atom) has been silently dropped, leaving
only the negated atom. -/
theorem not_demorgan_drops_nonatoms_witness :
    NotF (.conj [Formula.latom exP [exX], Formula.fa [exY] (.latom exP [exY]) false]) =
      .ok (.disj (([Formula.latom exP.get_negation [exX],
        Formula.fa [exY] (.latom exP [exY]) true]).filter isAtomF)) :=
  (not_demorgan_drops_nonatoms
    [Formula.latom exP [exX], Formula.fa [exY] (.latom exP [exY]) false]
    [Formula.latom exP.get_negation [exX], Formula.fa [exY] (.latom exP [exY]) true]
    (by rfl)).1

/-- A successful `LiftedAtom.ground` returns an atom carrying the lifted
atom's own predicate. -/
theorem liftedAtomGround_pred (p : Predicate) (vs : List PVariable) (sub : Sub)
    (g : GroundAtom) (h : liftedAtomGround p vs sub = .ok [g]) :
    g.predicate = p := by
  revert h
  unfold liftedAtomGround
  split
  · intro h; cases h
  · split
    · intro h; cases h
    · unfold mkGroundAtom
      split
      · intro h; cases h
      · split
        · intro h
          simp at h
          rw [← h]
        · intro h; cases h

/-- C1 counterexample: evaluating the lifted atom `NOT-p(?x)` (negated
predicate) under `?x ↦ a` against the *empty* state returns `True`, yet the
substituted ground atom `NOT-p(a)` is not a member of the validity-filtered
view of that state — the source filters the grounded singleton, not the
state, so a negated atom evaluates true unconditionally. -/
theorem atom_evaluate_counterexample :
    evalF (.latom exP.get_negation [exX]) [(exX, exA)] [] = .ok true ∧
    pyMemB (negGAtom exPA) (filterValidState []) = false ∧
    ¬ (evalF (.latom exP.get_negation [exX]) [(exX, exA)] [] = .ok true ↔
        pyMemB (negGAtom exPA) (filterValidState []) = true) := by
  refine ⟨by decide, by decide, fun h => absurd (h.mp (by decide)) (by decide)⟩

/-- C1 amended: for a lifted atom whose grounding under the substitution
succeeds, `evaluate(sub, state)` returns true iff the predicate is marked
negated (the validity filter is applied to the grounded singleton, deleting
it and making the subset test vacuous) or the substituted ground atom is a
member of the state. -/
theorem atom_evaluate_amended (p : Predicate) (vs : List PVariable) (sub : Sub)
    (state : List GroundAtom) (g : GroundAtom)
    (h : liftedAtomGround p vs sub = .ok [g]) :
    evalF (.latom p vs) sub state = .ok (p.is_negated || pyMemB g state) := by
  have hp : g.predicate = p := liftedAtomGround_pred p vs sub g h
  simp only [evalF, h, exceptBind_ok]
  cases hb : p.is_negated with
  | true => simp [filterValidState, hp, hb]
  | false => simp [filterValidState, hp, hb]

/-- Witness for the amended C1 at a concrete input: `p(?x)` under `?x ↦ a`
against the state `{p(a)}`. -/
theorem atom_evaluate_amended_witness :
    evalF (.latom exP [exX]) [(exX, exA)] [exPA] =
      .ok (exP.is_negated || pyMemB exPA [exPA]) :=
  atom_evaluate_amended exP [exX] [(exX, exA)] [exPA] exPA (by rfl)

/-- C2 counterexample: predicate equality is *not* canonical-string
equality.  `p` over `[t]` and `p` over `[s]` render to the same string but
compare unequal (the dataclass `__eq__` compares the `types` field), and
`p` compares equal to its own negation `NOT-p` (the `is_negated` field
carries `compare=False`) although their strings differ. -/
theorem string_equality_counterexample :
    Predicate.str exP = Predicate.str ⟨"p", [exS], false⟩ ∧
    Predicate.eqPy exP ⟨"p", [exS], false⟩ = false ∧
    ¬ (Predicate.eqPy exP ⟨"p", [exS], false⟩ = true ↔
        Predicate.str exP = Predicate.str ⟨"p", [exS], false⟩) ∧
    Predicate.eqPy exP exP.get_negation = true ∧
    Predicate.str exP ≠ Predicate.str exP.get_negation := by
  refine ⟨rfl, by decide, fun h => absurd (h.mpr rfl) (by decide), by decide, by decide⟩

/-- C2 amended: atoms and operators are equal iff their canonical strings
match, but predicates are compared field-by-field on `name` and `types`
(ignoring the negation flag), which is neither identity-based nor
string-based. -/
theorem string_equality_amended :
    (∀ a b : GroundAtom, GroundAtom.eqPy a b = true ↔ atomStr a = atomStr b) ∧
    (∀ a b : Operator, Operator.eqPy a b = true ↔ opStr a = opStr b) ∧
    (∀ a b : Predicate,
      Predicate.eqPy a b = true ↔ (a.name = b.name ∧ a.types = b.types)) := by
  refine ⟨fun a b => ?_, fun a b => ?_, fun a b => ?_⟩ <;>
    simp [GroundAtom.eqPy, Operator.eqPy, Predicate.eqPy]

/-- The effect of one `transition` step on the canonical-string image of the
state: erase the negated twin's string, insert the atom's string. -/
def stepS (S : Finset String) (a : GroundAtom) : Finset String :=
  insert (atomStr a) (S.erase (atomStr (negGAtom a)))

/-- `pyMemB` is string-image membership. -/
theorem pyMemB_iff (a : GroundAtom) (s : List GroundAtom) :
    pyMemB a s = true ↔ atomStr a ∈ strSet s := by
  simp only [pyMemB, strSet, List.any_eq_true, List.mem_toFinset, List.mem_map,
    decide_eq_true_eq]

/-- `pyDiscard` erases the discarded atom's string from the image. -/
theorem strSet_pyDiscard (a : GroundAtom) (s : List GroundAtom) :
    strSet (pyDiscard a s) = (strSet s).erase (atomStr a) := by
  ext x
  simp only [strSet, pyDiscard, List.mem_toFinset, List.mem_map, Finset.mem_erase,
    List.mem_filter, decide_eq_true_eq]
  constructor
  · rintro ⟨b, ⟨hb, hne⟩, rfl⟩
    exact ⟨hne, b, hb, rfl⟩
  · rintro ⟨hne, b, hb, rfl⟩
    exact ⟨b, ⟨hb, hne⟩, rfl⟩

/-- `pyAdd` inserts the added atom's string into the image. -/
theorem strSet_pyAdd (a : GroundAtom) (s : List GroundAtom) :
    strSet (pyAdd a s) = insert (atomStr a) (strSet s) := by
  by_cases h : pyMemB a s
  · rw [pyAdd, if_pos h, Finset.insert_eq_self.mpr ((pyMemB_iff a s).mp h)]
  · rw [pyAdd, if_neg h]
    ext x
    simp only [strSet, List.mem_toFinset, List.mem_map, List.mem_append,
      Finset.mem_insert, List.mem_singleton]
    constructor
    · rintro ⟨b, hb | hb, rfl⟩
      · exact Or.inr ⟨b, hb, rfl⟩
      · exact Or.inl (by rw [hb])
    · rintro (rfl | ⟨b, hb, rfl⟩)
      · exact ⟨a, Or.inr rfl, rfl⟩
      · exact ⟨b, Or.inl hb, rfl⟩

/-- The string image of `transition` is a left fold of `stepS` over the
effect list: each step removes the negated twin, then inserts the atom. -/
theorem strSet_transition (s : List GroundAtom) (eff : List GroundAtom) :
    strSet (transition s eff) = eff.foldl stepS (strSet s) := by
  induction eff generalizing s with
  | nil => rfl
  | cons a rest ih =>
    show strSet (transition (pyAdd a (pyDiscard (negGAtom a) s)) rest) = _
    rw [ih, List.foldl_cons, stepS, strSet_pyAdd, strSet_pyDiscard]

/-- Two `stepS` steps commute when neither atom's string is the other's
negated twin's string. -/
theorem stepS_comm (a b : GroundAtom) (hab : atomStr b ≠ atomStr (negGAtom a))
    (hba : atomStr a ≠ atomStr (negGAtom b)) (S : Finset String) :
    stepS (stepS S a) b = stepS (stepS S b) a := by
  simp only [stepS]
  ext x
  simp only [Finset.mem_insert, Finset.mem_erase]
  constructor
  · rintro (rfl | ⟨hxnb, rfl | ⟨hxna, hx⟩⟩)
    · exact Or.inr ⟨hab, Or.inl rfl⟩
    · exact Or.inl rfl
    · exact Or.inr ⟨hxna, Or.inr ⟨hxnb, hx⟩⟩
  · rintro (rfl | ⟨hxna, rfl | ⟨hxnb, hx⟩⟩)
    · exact Or.inr ⟨hba, Or.inl rfl⟩
    · exact Or.inl rfl
    · exact Or.inr ⟨hxnb, Or.inr ⟨hxna, hx⟩⟩

/-- C3 counterexample: the two processing orders of the effect set
`{p(a), NOT-p(a)}` — which contains an atom together with its negated twin —
applied to the empty state produce different result sets, so the result is
*not* identical for every processing order. -/
theorem transition_order_counterexample :
    ([exPA, negGAtom exPA] : List GroundAtom).Perm [negGAtom exPA, exPA] ∧
    strSet (transition [] [exPA, negGAtom exPA]) ≠
      strSet (transition [] [negGAtom exPA, exPA]) := by
  exact ⟨by decide, by decide⟩

/-- C3 amended: `transition` processes effect atoms one at a time — each
step removes the atom's negated twin and inserts the atom — and when the
effect set contains no atom together with its negated twin, the resulting
state is the same (as a set of canonical strings) for every processing
order. -/
theorem transition_order_amended (s : List GroundAtom) (eff eff' : List GroundAtom)
    (hperm : eff.Perm eff')
    (hcp : ∀ a ∈ eff, ∀ b ∈ eff, atomStr b ≠ atomStr (negGAtom a)) :
    strSet (transition s eff) = eff.foldl stepS (strSet s) ∧
    strSet (transition s eff) = strSet (transition s eff') := by
  refine ⟨strSet_transition s eff, ?_⟩
  rw [strSet_transition, strSet_transition]
  exact hperm.foldl_eq'
    (fun x hx y hy S => stepS_comm x y (hcp x hx y hy) (hcp y hy x hx) S)
    (strSet s)

/-- Witness for the amended C3 at a concrete input: the effect
`{p(a), p(b)}` (no negated-twin pair) applied to the empty state in both
orders. -/
theorem transition_order_amended_witness :
    strSet (transition [] [exPA, exPB]) = [exPA, exPB].foldl stepS (strSet []) ∧
    strSet (transition [] [exPA, exPB]) = strSet (transition [] [exPB, exPA]) :=
  transition_order_amended [] [exPA, exPB] [exPB, exPA] (by decide) (by decide)

/-- A Python set of variables never contains a plain string: `contains`
over the `VarOrStr.var` image of a variable list is false on every
`VarOrStr.str` element. -/
theorem contains_var_image_str (s : String) (params : List PVariable) :
    ((params.map VarOrStr.var).contains (VarOrStr.str s)) = false := by
  induction params with
  | nil => rfl
  | cons p ps ih => simp [ih]

/-- C4: the exposed variables of a disjunction are the *names* of the
children's exposed variables (as plain strings), not the variables; in
consequence an operator whose precondition is a disjunction with at least
one variable fails construction with the undeclared-precondition-variable
error for **every** parameter list (in particular one declaring every
variable of the disjunction), and `evaluate` on such a disjunction fails
its substitution-coverage assertion for every substitution keyed by
variables. -/
theorem disjunction_exposes_name_strings (ls : List Formula) (u : List VarOrStr)
    (names : List String) (hu : exposedVarsList ls = some u)
    (hn : pyNamesOf u = some names) :
    exposedVars (.disj ls) = some ((names.map VarOrStr.str).dedup) ∧
    (names ≠ [] →
      ∀ (n : String) (params : List PVariable) (eff : Formula),
        mkOperator n params (.disj ls) eff =
          .error (.valueError (undeclaredPrecondMsg n))) ∧
    (names ≠ [] → ∀ (sub : Sub) (st : List GroundAtom),
      evalF (.disj ls) sub st = .error .assertionError) := by
  have hS : exposedVars (.disj ls) = some ((names.map VarOrStr.str).dedup) := by
    simp only [exposedVars, hu, optionBind_some, hn, optionPure_eq]
  have hstr : ∀ x ∈ (names.map VarOrStr.str).dedup, ∃ s, x = VarOrStr.str s := by
    intro x hx
    rcases List.mem_map.mp (List.mem_dedup.mp hx) with ⟨s, _, rfl⟩
    exact ⟨s, rfl⟩
  have hne : names ≠ [] → (names.map VarOrStr.str).dedup ≠ [] := by
    intro h0 hd
    exact h0 (List.map_eq_nil_iff.mp ((List.dedup_eq_nil _).mp hd))
  refine ⟨hS, fun h0 n params eff => ?_, fun h0 sub st => ?_⟩
  · have hfilter :
        ((names.map VarOrStr.str).dedup.filter
          (fun x => ¬ (params.map VarOrStr.var).contains x)) =
          (names.map VarOrStr.str).dedup := by
      apply List.filter_eq_self.mpr
      intro x hx
      rcases hstr x hx with ⟨s, rfl⟩
      simp [contains_var_image_str]
    rw [mkOperator, hS]
    simp only [Option.elim_some]
    rw [if_pos]
    rw [hfilter]
    intro hemp
    exact hne h0 (List.isEmpty_iff.mp hemp)
  · have hcov : coverageCheck (.disj ls) sub = .error .assertionError := by
      rw [coverageCheck, hS]
      simp only [Option.elim_some]
      rw [if_neg]
      intro hall
      rcases List.exists_mem_of_ne_nil _ (hne h0) with ⟨x, hx⟩
      rcases hstr x hx with ⟨s, rfl⟩
      have := List.all_eq_true.mp hall _ hx
      rw [contains_var_image_str] at this
      cases this
    show (coverageCheck (.disj ls) sub >>= fun _ => evalAny ls sub st) =
      .error .assertionError
    rw [hcov]
    rfl

/-- Witness for C4 at a concrete input: the disjunction `p(?x) ∨ q(?x)`
exposes the name string of `?x`; constructing an operator with `?x`
declared in its parameters still fails with the precondition error, and
evaluation under `?x ↦ a` fails the coverage assertion. -/
theorem disjunction_exposes_name_strings_witness :
    exposedVars (.disj [Formula.latom exP [exX], Formula.latom exQ [exX]]) =
      some ((["?x"].map VarOrStr.str).dedup) ∧
    mkOperator "op" [exX] (.disj [Formula.latom exP [exX], Formula.latom exQ [exX]])
      (.latom exP [exX]) = .error (.valueError (undeclaredPrecondMsg "op")) ∧
    evalF (.disj [Formula.latom exP [exX], Formula.latom exQ [exX]])
      [(exX, exA)] [] = .error .assertionError := by
  have h := disjunction_exposes_name_strings
    [Formula.latom exP [exX], Formula.latom exQ [exX]]
    [VarOrStr.var exX] ["?x"] (by rfl) (by rfl)
  exact ⟨h.1, h.2.1 (by decide) "op" [exX] (.latom exP [exX]),
    h.2.2 (by decide) [(exX, exA)] []⟩

/-- C8: operator construction fails whenever the precondition (or effect)
exposes an element outside the parameter list — the precondition check
fires first with its own error — and whenever the effect uses no
predicate; conversely a successful construction guarantees that every
exposed element of precondition and effect lies in the parameter list and
that the effect uses at least one predicate. -/
theorem operator_construction_checks (n : String) (params : List PVariable)
    (pre eff : Formula) :
    (∀ sp, exposedVars pre = some sp →
      (∃ x ∈ sp, ¬ (params.map VarOrStr.var).contains x) →
      mkOperator n params pre eff = .error (.valueError (undeclaredPrecondMsg n))) ∧
    (∀ se, exposedVars eff = some se →
      (∃ x ∈ se, ¬ (params.map VarOrStr.var).contains x) →
      ∀ op, mkOperator n params pre eff ≠ .ok op) ∧
    (usedPredicates eff = some [] → ∀ op, mkOperator n params pre eff ≠ .ok op) ∧
    (∀ op, mkOperator n params pre eff = .ok op →
      ∃ sp se ps, exposedVars pre = some sp ∧
        (∀ x ∈ sp, (params.map VarOrStr.var).contains x) ∧
        exposedVars eff = some se ∧
        (∀ x ∈ se, (params.map VarOrStr.var).contains x) ∧
        usedPredicates eff = some ps ∧ ps ≠ []) := by
  refine ⟨?_, ?_, ?_, ?_⟩
  · intro sp hsp ⟨x, hx, hxc⟩
    rw [mkOperator, hsp]
    simp only [Option.elim_some]
    rw [if_pos]
    intro hemp
    have h1 := List.filter_eq_nil_iff.mp (List.isEmpty_iff.mp hemp) x hx
    simp only [decide_eq_true_eq, not_not] at h1
    exact hxc h1
  · intro se hse ⟨x, hx, hxc⟩ op hok
    rw [mkOperator] at hok
    rcases hsp : exposedVars pre with _ | sp <;> rw [hsp] at hok <;>
      simp only [Option.elim_none, Option.elim_some] at hok
    · cases hok
    · by_cases h1 : ¬ (sp.filter (fun x => ¬ (params.map VarOrStr.var).contains x)).isEmpty
      · rw [if_pos h1] at hok; cases hok
      · rw [if_neg h1, hse] at hok
        simp only [Option.elim_some] at hok
        rw [if_pos] at hok
        · cases hok
        · intro hemp
          have h2 := List.filter_eq_nil_iff.mp (List.isEmpty_iff.mp hemp) x hx
          simp only [decide_eq_true_eq, not_not] at h2
          exact hxc h2
  · intro hup op hok
    rw [mkOperator] at hok
    rcases hsp : exposedVars pre with _ | sp <;> rw [hsp] at hok <;>
      simp only [Option.elim_none, Option.elim_some] at hok
    · cases hok
    · by_cases h1 : ¬ (sp.filter (fun x => ¬ (params.map VarOrStr.var).contains x)).isEmpty
      · rw [if_pos h1] at hok; cases hok
      · rw [if_neg h1] at hok
        rcases hse : exposedVars eff with _ | se <;> rw [hse] at hok <;>
          simp only [Option.elim_none, Option.elim_some] at hok
        · cases hok
        · by_cases h2 : ¬ (se.filter (fun x => ¬ (params.map VarOrStr.var).contains x)).isEmpty
          · rw [if_pos h2] at hok; cases hok
          · rw [if_neg h2, hup] at hok
            simp at hok
  · intro op hok
    rw [mkOperator] at hok
    rcases hsp : exposedVars pre with _ | sp <;> rw [hsp] at hok <;>
      simp only [Option.elim_none, Option.elim_some] at hok
    · cases hok
    · by_cases h1 : ¬ (sp.filter (fun x => ¬ (params.map VarOrStr.var).contains x)).isEmpty
      · rw [if_pos h1] at hok; cases hok
      · rw [if_neg h1] at hok
        rcases hse : exposedVars eff with _ | se <;> rw [hse] at hok <;>
          simp only [Option.elim_none, Option.elim_some] at hok
        · cases hok
        · by_cases h2 : ¬ (se.filter (fun x => ¬ (params.map VarOrStr.var).contains x)).isEmpty
          · rw [if_pos h2] at hok; cases hok
          · rw [if_neg h2] at hok
            rcases hup : usedPredicates eff with _ | ps <;> rw [hup] at hok <;>
              simp only [Option.elim_none, Option.elim_some] at hok
            · cases hok
            · by_cases h3 : ps.isEmpty
              · rw [if_pos h3] at hok; cases hok
              · have hsp' : ∀ x ∈ sp, (params.map VarOrStr.var).contains x := by
                  intro x hx
                  have hh := List.filter_eq_nil_iff.mp
                    (List.isEmpty_iff.mp (not_not.mp h1)) x hx
                  simpa using hh
                have hse' : ∀ x ∈ se, (params.map VarOrStr.var).contains x := by
                  intro x hx
                  have hh := List.filter_eq_nil_iff.mp
                    (List.isEmpty_iff.mp (not_not.mp h2)) x hx
                  simpa using hh
                have hps' : ps ≠ [] := fun hh => h3 (by rw [hh]; rfl)
                exact ⟨sp, se, ps, rfl, hsp', rfl, hse', rfl, hps'⟩

/-- Witness for C8 at a concrete input: constructing an operator whose
precondition `p(?y)` exposes a variable not among the parameters `[?x]`
fails with the undeclared-precondition-variable error. -/
theorem operator_construction_checks_witness :
    mkOperator "op" [exX] (.latom exP [exY]) (.latom exP [exX]) =
      .error (.valueError (undeclaredPrecondMsg "op")) :=
  (operator_construction_checks "op" [exX] (.latom exP [exY]) (.latom exP [exX])).1
    [VarOrStr.var exY] (by rfl) (by decide)

/-- `faLoop` over branchwise-successful groundings returns the
concatenation of the branches. -/
theorem faLoop_forall2 {α : Type} (f : α → Except PyError (List GroundAtom))
    {combos : List α} {branches : List (List GroundAtom)}
    (h : List.Forall₂ (fun c b => f c = .ok b) combos branches) :
    faLoop (combos.map f) = .ok branches.flatten := by
  induction h with
  | nil => rfl
  | cons hcb _ ih => simp [faLoop, hcb, ih]

/-- A Cartesian product with an empty factor is empty. -/
theorem listProduct_eq_nil_of_mem {α : Type} :
    ∀ (ls : List (List α)), [] ∈ ls → listProduct ls = [] := by
  intro ls hmem
  induction ls with
  | nil => cases hmem
  | cons l rest ih =>
    rcases List.mem_cons.mp hmem with rfl | hmem'
    · rfl
    · simp [listProduct, ih hmem', List.flatten_eq_nil_iff]

/-- The length of the Cartesian product is the product of the factor
lengths. -/
theorem listProduct_length {α : Type} :
    ∀ (ls : List (List α)), (listProduct ls).length = (ls.map List.length).prod := by
  intro ls
  induction ls with
  | nil => rfl
  | cons l rest ih =>
    show ((l.map fun x => (listProduct rest).map (x :: ·)).flatten).length = _
    rw [List.length_flatten, List.map_map]
    have h1 : (List.length ∘ fun x => (listProduct rest).map (x :: ·)) =
        fun _ : α => (listProduct rest).length := by
      funext x
      simp
    rw [h1, List.map_const', List.sum_replicate, smul_eq_mul, ih, List.map_cons,
      List.prod_cons]

/-- The string image of a concatenation of branch results is the union of
the branches' string images. -/
theorem strSet_flatten :
    ∀ (rss : List (List GroundAtom)),
      strSet rss.flatten = rss.foldr (fun r acc => strSet r ∪ acc) ∅ := by
  intro rss
  induction rss with
  | nil => rfl
  | cons r rest ih =>
    show strSet (r ++ rest.flatten) = _
    rw [List.foldr_cons, ← ih]
    ext x
    simp [strSet, List.mem_append]

/-- C5: `ForAll.ground` is the union, over the Cartesian product of
per-variable candidate lists, of the body grounded under the substitution
extended with each combination; an empty candidate list for any quantified
variable yields the empty set; for two same-typed quantified variables the
product has exactly `n * n` substitution branches; and the candidates for
a variable are exactly the objects of the state whose type equals the
variable's type (dataclass equality, not a subtype walk). -/
theorem forall_ground_product (vs : List PVariable) (body : Formula) (neg : Bool)
    (sub : Sub) (state : List GroundAtom) :
    (∀ branches : List (List GroundAtom),
      List.Forall₂ (fun combo b => groundF body (subUpdate sub vs combo) state = .ok b)
        (listProduct (vs.map (objsForVar state))) branches →
      groundF (.fa vs body neg) sub state = .ok branches.flatten ∧
      strSet branches.flatten = branches.foldr (fun r acc => strSet r ∪ acc) ∅) ∧
    ((∃ v ∈ vs, objsForVar state v = []) →
      groundF (.fa vs body neg) sub state = .ok []) ∧
    (∀ x y : PVariable, vs = [x, y] → x.ptype = y.ptype →
      (listProduct (vs.map (objsForVar state))).length =
        (objsForVar state x).length * (objsForVar state x).length) ∧
    (∀ (v : PVariable) (o : PObject),
      o ∈ objsForVar state v ↔ o ∈ getObjectsInState state ∧ o.ptype = v.ptype) := by
  refine ⟨fun branches h => ⟨?_, strSet_flatten branches⟩, ?_, ?_, ?_⟩
  · show faLoop ((listProduct (vs.map (objsForVar state))).map
      (fun combo => groundF body (subUpdate sub vs combo) state)) = _
    exact faLoop_forall2 _ h
  · rintro ⟨v, hv, hnil⟩
    have hmem : [] ∈ vs.map (objsForVar state) :=
      List.mem_map.mpr ⟨v, hv, hnil⟩
    show faLoop ((listProduct (vs.map (objsForVar state))).map
      (fun combo => groundF body (subUpdate sub vs combo) state)) = _
    rw [listProduct_eq_nil_of_mem _ hmem]
    rfl
  · rintro x y rfl hxy
    have : objsForVar state y = objsForVar state x := by
      unfold objsForVar
      rw [hxy]
    rw [listProduct_length]
    simp [this]
  · intro v o
    simp [objsForVar, List.mem_filter]

/-- Witness for C5 at a concrete input: `∀?x ?y. p(?x)` grounded in the
state `{p(a), p(b)}` unions four branches (one per combination of the two
same-typed candidates) and the product has `2 * 2` branches. -/
theorem forall_ground_product_witness :
    groundF (.fa [exX, exY] (.latom exP [exX]) false) [] [exPA, exPB] =
      .ok ([[exPA], [exPA], [exPB], [exPB]].flatten) ∧
    (listProduct ([exX, exY].map (objsForVar [exPA, exPB]))).length =
      (objsForVar [exPA, exPB] exX).length * (objsForVar [exPA, exPB] exX).length := by
  refine ⟨((forall_ground_product [exX, exY] (.latom exP [exX]) false [] [exPA, exPB]).1
    [[exPA], [exPA], [exPB], [exPB]]
    (.cons (by rfl) (.cons (by rfl) (.cons (by rfl) (.cons (by rfl) .nil))))).1, ?_⟩
  exact (forall_ground_product [exX, exY] (.latom exP [exX]) false [] [exPA, exPB]).2.2.1
    exX exY rfl rfl

/-- Closing-delimiter count of the empty fragment. -/
@[simp] theorem closesCount_nil : closesCount [] = 0 := rfl

/-- Opening-delimiter count of the empty fragment. -/
@[simp] theorem opensCount_nil : opensCount [] = 0 := rfl

/-- Closing-delimiter count across a cons. -/
@[simp] theorem closesCount_cons (c : Char) (l : List Char) :
    closesCount (c :: l) = closesCount l + (if c = ')' then 1 else 0) := by
  simp [closesCount, List.count_cons]

/-- Opening-delimiter count across a cons. -/
@[simp] theorem opensCount_cons (c : Char) (l : List Char) :
    opensCount (c :: l) = opensCount l + (if c = '(' then 1 else 0) := by
  simp [opensCount, List.count_cons]

/-- Closing-delimiter count across an append. -/
@[simp] theorem closesCount_append (l₁ l₂ : List Char) :
    closesCount (l₁ ++ l₂) = closesCount l₁ + closesCount l₂ := by
  simp [closesCount, List.count_append]

/-- Opening-delimiter count across an append. -/
@[simp] theorem opensCount_append (l₁ l₂ : List Char) :
    opensCount (l₁ ++ l₂) = opensCount l₁ + opensCount l₂ := by
  simp [opensCount, List.count_append]

/-- Specification of a successful `findClose` scan at skip depth `d`: the
found position holds a closing delimiter, the segment before it closes
exactly `d` more than it opens, and no earlier cut closes more than it
opens plus `d`. -/
theorem findClose_some_spec :
    ∀ (cs : List Char) (d i : Nat), findClose cs d = some i →
      cs[i]? = some ')' ∧
      closesCount (cs.take i) = opensCount (cs.take i) + d ∧
      ∀ k, k ≤ i → closesCount (cs.take k) ≤ opensCount (cs.take k) + d := by
  intro cs
  induction cs with
  | nil => intro d i h; cases h
  | cons c cs' ih =>
    intro d i h
    by_cases hc : c = '('
    · rw [findClose, if_pos hc] at h
      obtain ⟨j, hj, rfl⟩ := Option.map_eq_some'.mp h
      obtain ⟨hget, heq, hle⟩ := ih (d + 1) j hj
      refine ⟨by simpa using hget, ?_, ?_⟩
      · simp [List.take_succ_cons, hc, heq]
        omega
      · intro k hk
        cases k with
        | zero => simp
        | succ k' =>
          have := hle k' (by omega)
          simp [List.take_succ_cons, hc]
          omega
    · by_cases hcr : c = ')'
      · by_cases hd : d = 0
        · rw [findClose, if_neg hc, if_pos hcr, if_pos hd] at h
          cases h
          refine ⟨by simp [hcr], by simp [hd], ?_⟩
          intro k hk
          interval_cases k
          simp
        · rw [findClose, if_neg hc, if_pos hcr, if_neg hd] at h
          obtain ⟨j, hj, rfl⟩ := Option.map_eq_some'.mp h
          obtain ⟨hget, heq, hle⟩ := ih (d - 1) j hj
          refine ⟨by simpa using hget, ?_, ?_⟩
          · simp [List.take_succ_cons, hcr, hc, heq]
            omega
          · intro k hk
            cases k with
            | zero => simp
            | succ k' =>
              have := hle k' (by omega)
              simp [List.take_succ_cons, hcr, hc]
              omega
      · rw [findClose, if_neg hc, if_neg hcr] at h
        obtain ⟨j, hj, rfl⟩ := Option.map_eq_some'.mp h
        obtain ⟨hget, heq, hle⟩ := ih d j hj
        refine ⟨by simpa using hget, ?_, ?_⟩
        · simp [List.take_succ_cons, hc, hcr, heq]
        · intro k hk
          cases k with
          | zero => simp
          | succ k' =>
            have := hle k' (by omega)
            simp [List.take_succ_cons, hc, hcr]
            omega

/-- Specification of a failed `findClose` scan at skip depth `d`: no cut of
the scanned fragment closes more than it opens plus `d`. -/
theorem findClose_none_spec :
    ∀ (cs : List Char) (d : Nat), findClose cs d = none →
      ∀ k, closesCount (cs.take k) ≤ opensCount (cs.take k) + d := by
  intro cs
  induction cs with
  | nil => intro d _ k; simp
  | cons c cs' ih =>
    intro d h k
    cases k with
    | zero => simp
    | succ k' =>
      by_cases hc : c = '('
      · rw [findClose, if_pos hc] at h
        have := ih (d + 1) (Option.map_eq_none'.mp h) k'
        simp [List.take_succ_cons, hc]
        omega
      · by_cases hcr : c = ')'
        · by_cases hd : d = 0
          · rw [findClose, if_neg hc, if_pos hcr, if_pos hd] at h
            cases h
          · rw [findClose, if_neg hc, if_pos hcr, if_neg hd] at h
            have := ih (d - 1) (Option.map_eq_none'.mp h) k'
            simp [List.take_succ_cons, hc, hcr]
            omega
        · rw [findClose, if_neg hc, if_neg hcr] at h
          have := ih d (Option.map_eq_none'.mp h) k'
          simp [List.take_succ_cons, hc, hcr]
          omega

/-- C10: on success, `until_next_closing_parenthesis` splits its input into
the shortest non-empty balanced-parenthesis initial fragment and the rest
(their concatenation restores the input); and it reports an error exactly
when the input does not begin with an opening delimiter or no non-empty
initial fragment is balanced (no matching closing delimiter exists). -/
theorem scanner_matching_close_spec (s : List Char) :
    (∀ p r, untilNextClosingParenthesis s = .ok (p, r) →
      p ++ r = s ∧ p ≠ [] ∧ balancedParens p ∧
      ∀ k, 0 < k → k < p.length → ¬ balancedParens (s.take k)) ∧
    ((∃ e, untilNextClosingParenthesis s = .error e) ↔
      (s.head? ≠ some '(' ∨ ∀ k, 0 < k → ¬ balancedParens (s.take k))) := by
  cases s with
  | nil =>
    exact ⟨(fun p r h => nomatch h),
      Iff.intro (fun _ => Or.inl (by simp)) (fun _ => ⟨.indexError, rfl⟩)⟩
  | cons c rest =>
    by_cases hc : c = '('
    · subst hc
      cases hfc : findClose rest 0 with
      | none =>
        have herr : untilNextClosingParenthesis ('(' :: rest) =
            .error (.valueError "No closing parenthesis found in the string") := by
          rw [untilNextClosingParenthesis, if_neg (by simp), hfc]
        have hnb : ∀ k, 0 < k → ¬ balancedParens (('(' :: rest).take k) := by
          intro k hk hbal
          obtain ⟨htot, _⟩ := hbal
          cases k with
          | zero => omega
          | succ k' =>
            rw [List.take_succ_cons] at htot
            have := findClose_none_spec rest 0 hfc k'
            simp at htot
            omega
        exact ⟨(fun p r h => absurd (herr ▸ h) (fun hcontra => nomatch hcontra)),
          Iff.intro (fun _ => Or.inr hnb) (fun _ => ⟨_, herr⟩)⟩
      | some i =>
        have hok : untilNextClosingParenthesis ('(' :: rest) =
            .ok (('(' :: rest).take (i + 2), ('(' :: rest).drop (i + 2)) := by
          rw [untilNextClosingParenthesis, if_neg (by simp), hfc]
        obtain ⟨hget, heq, hle⟩ := findClose_some_spec rest 0 i hfc
        have hilen : i < rest.length := by
          by_contra hbig
          rw [List.getElem?_eq_none (by omega)] at hget
          cases hget
        have hplen : (('(' :: rest).take (i + 2)).length = i + 2 := by
          simp [List.length_take]
          omega
        have htake1 : rest.take (i + 1) = rest.take i ++ [')'] := by
          rw [List.take_succ, hget]
          rfl
        have hbal : balancedParens (('(' :: rest).take (i + 2)) := by
          rw [List.take_succ_cons]
          constructor
          · simp [htake1, heq]
          · intro n
            cases n with
            | zero => simp
            | succ n' =>
              rw [List.take_succ_cons, List.take_take]
              rcases Nat.lt_or_ge n' (i + 1) with hlt | hge
              · have hmin : min n' (i + 1) = n' := by omega
                rw [hmin]
                have := hle n' (by omega)
                simp
                omega
              · have hmin : min n' (i + 1) = i + 1 := by omega
                rw [hmin]
                simp [htake1, heq]
        have hshort : ∀ k, 0 < k → k < i + 2 →
            ¬ balancedParens (('(' :: rest).take k) := by
          intro k hk hki hbalk
          obtain ⟨htot, _⟩ := hbalk
          cases k with
          | zero => omega
          | succ k' =>
            rw [List.take_succ_cons] at htot
            have := hle k' (by omega)
            simp at htot
            omega
        refine ⟨?_, ?_⟩
        · intro p r h
          rw [hok] at h
          injection h with h1
          injection h1 with hp hr
          subst hp
          subst hr
          refine ⟨List.take_append_drop _ _, by simp, hbal, ?_⟩
          intro k hk hklen
          exact hshort k hk (by rw [hplen] at hklen; omega)
        · constructor
          · rintro ⟨e, he⟩
            rw [hok] at he
            cases he
          · rintro (hhead | hnb)
            · exact absurd rfl hhead
            · exact absurd hbal (hnb (i + 2) (by omega))
    · have herr : untilNextClosingParenthesis (c :: rest) =
          .error (.valueError "The string must start with an opening parenthesis") := by
        rw [untilNextClosingParenthesis, if_pos hc]
      exact ⟨(fun p r h => absurd (herr ▸ h) (fun hcontra => nomatch hcontra)),
        Iff.intro (fun _ => Or.inl (by simp [hc])) (fun _ => ⟨_, herr⟩)⟩

/-- Witness for C10 at a concrete input: `"(a(b))c"` splits into the
shortest balanced fragment `"(a(b))"` and remainder `"c"`. -/
theorem scanner_matching_close_spec_witness :
    (['(', 'a', '(', 'b', ')', ')'] : List Char) ++ ['c'] =
        ['(', 'a', '(', 'b', ')', ')', 'c'] ∧
    (['(', 'a', '(', 'b', ')', ')'] : List Char) ≠ [] ∧
    balancedParens ['(', 'a', '(', 'b', ')', ')'] ∧
    ∀ k, 0 < k → k < (['(', 'a', '(', 'b', ')', ')'] : List Char).length →
      ¬ balancedParens ((['(', 'a', '(', 'b', ')', ')', 'c'] : List Char).take k) :=
  (scanner_matching_close_spec ['(', 'a', '(', 'b', ')', ')', 'c']).1
    ['(', 'a', '(', 'b', ')', ')'] ['c'] (by rfl)

end PddlUtils
